import Mathlib

/-!
Verification of the rocklabs-io/governance repository against its
natural-language specification.

The Rust sources (governance.rs, timelock.rs, stable.rs, gov_token/lib.rs)
are shallowly embedded below.  Machine integers (`u64`, `usize`, candid
`Nat`) are modelled as `Nat`; principals are modelled as opaque `Nat`
identifiers; `HashMap`/`HashSet` are modelled as association lists / lists
with explicit lookup, insert and erase operations.  A Rust `panic!`
(out-of-bounds indexing, `unwrap` on `None`, `assert!(false)`) is modelled
by an explicit `panic` constructor of the result types.
-/

namespace Gov

/-- Association-list lookup, first matching key wins (HashMap.get). -/
def lookupKV {α : Type} [DecidableEq α] {β : Type} : List (α × β) → α → Option β
  | [], _ => none
  | (k, v) :: t, a => if k = a then some v else lookupKV t a

/-- Lookup with a default value. -/
def lookupD {α : Type} [DecidableEq α] {β : Type} (l : List (α × β)) (a : α) (d : β) : β :=
  (lookupKV l a).getD d

/-- Remove the first binding of a key (HashMap.remove). -/
def eraseKV {α : Type} [DecidableEq α] {β : Type} : List (α × β) → α → List (α × β)
  | [], _ => []
  | (k, v) :: t, a => if k = a then t else (k, v) :: eraseKV t a

/-- Replace-or-add a binding (HashMap.insert). -/
def insertKV {α : Type} [DecidableEq α] {β : Type} (l : List (α × β)) (a : α) (b : β) :
    List (α × β) :=
  (a, b) :: eraseKV l a

/-- Sum of all values of a Nat-valued association list. -/
def sumVals {α : Type} (l : List (α × Nat)) : Nat :=
  (l.map (fun p => p.2)).sum

/-- The association list has no duplicate keys (HashMap well-formedness). -/
def NodupKeys {α : Type} {β : Type} (l : List (α × β)) : Prop :=
  (l.map (fun p => p.1)).Nodup

/- ## Timelock (timelock.rs) -/

/-- One nanosecond-denominated day (`ONE_DAY` in timelock.rs). -/
def ONE_DAY : Nat := 24 * 3600 * 1000000000

/-- `Timelock::GRACE_PERIOD`, 14 days. -/
def GRACE_PERIOD : Nat := 14 * ONE_DAY

/-- A timelock task (struct `Task` in timelock.rs).  `eta = 0` means not yet
queued. -/
structure Task where
  target : Nat
  method : String
  arguments : List Nat
  cycles : Nat
  eta : Nat
deriving DecidableEq

/-- `Task::new`: fresh task with `eta = 0`. -/
def Task.new (target : Nat) (method : String) (arguments : List Nat) (cycles : Nat) : Task :=
  { target := target, method := method, arguments := arguments, cycles := cycles, eta := 0 }

/-- The timelock: a delay and a set of queued tasks (struct `Timelock`). -/
structure Timelock where
  delay : Nat
  queued_transactions : List Task
deriving DecidableEq

/-- `Timelock::queue_transaction`: HashSet insert (idempotent). -/
def Timelock.queue_transaction (tl : Timelock) (task : Task) : Timelock :=
  if task ∈ tl.queued_transactions then tl
  else { tl with queued_transactions := task :: tl.queued_transactions }

/-- `Timelock::cancel_transaction`: HashSet remove (idempotent). -/
def Timelock.cancel_transaction (tl : Timelock) (task : Task) : Timelock :=
  { tl with queued_transactions := tl.queued_transactions.filter (fun t => t ≠ task) }

/-- The pre-dispatch portion of `Timelock::execute_transaction`
(timelock.rs lines 79-90): the three guards followed by removal of the task
from the queued set.  The guards are transcribed exactly as written in the
source. -/
def Timelock.execute_transaction_pre (tl : Timelock) (task : Task) (timestamp : Nat) :
    Except String Timelock :=
  if task ∈ tl.queued_transactions then
    .error "Transaction hasn't been queued"
  else if timestamp ≥ task.eta then
    .error "Transaction hasn't surpassed time lock"
  else if timestamp ≤ task.eta + GRACE_PERIOD then
    .error "Transaction is stale"
  else
    .ok { tl with queued_transactions := tl.queued_transactions.filter (fun t => t ≠ task) }

/-- Modelled from the spec: `preExecuteTransaction(task, now)` is called by
`GovernorBravo::pre_execute` but `Timelock::pre_execute_transaction` is not
present in the sources (only `execute_transaction` is).  Spec 4.3: fails
`NotQueued` if absent from the set; fails `TooEarly` if `now < eta`; fails
`Stale` if `now > eta + GRACE_PERIOD`; otherwise removes the task from the
set and succeeds. -/
def Timelock.pre_execute_transaction (tl : Timelock) (task : Task) (now : Nat) :
    Except String Timelock :=
  if task ∉ tl.queued_transactions then
    .error "NotQueued"
  else if now < task.eta then
    .error "TooEarly"
  else if now > task.eta + GRACE_PERIOD then
    .error "Stale"
  else
    .ok { tl with queued_transactions := tl.queued_transactions.filter (fun t => t ≠ task) }

/-- Modelled from the spec: `postExecuteTransaction(task, success)` is called
by `GovernorBravo::post_execute` but is not present in the sources.
Spec 4.3: on failure the task is re-inserted, on success it stays gone. -/
def Timelock.post_execute_transaction (tl : Timelock) (task : Task) (success : Bool) :
    Timelock :=
  if success then tl else tl.queue_transaction task

/- ## Stable memory (stable.rs) -/

/-- A reference into the append-only stable-memory log (struct `Position`). -/
structure Position where
  offset : Nat
  len : Nat
deriving DecidableEq

/-- Struct `StableMemory`: a write offset and a page count. -/
structure StableMemory where
  offset : Nat
  capacity : Nat
deriving DecidableEq

/-- `StableMemory::size`: current size in bytes (`capacity << 16`). -/
def StableMemory.size (m : StableMemory) : Nat :=
  m.capacity <<< 16

/-- `StableMemory::write` for a buffer of `n` bytes.  The underlying
`stable_grow` system call is external and can fail; its success is supplied
as the `growOk` argument.  On success the offset advances by `n` and the
number of bytes written is returned; a failed grow returns an error without
mutating the struct. -/
def StableMemory.write (m : StableMemory) (n : Nat) (growOk : Bool) :
    Except Unit (StableMemory × Nat) :=
  if m.offset + n > m.size then
    if growOk then
      .ok ({ offset := m.offset + n, capacity := m.capacity + ((n >>> 16) + 1) }, n)
    else
      .error ()
  else
    .ok ({ m with offset := m.offset + n }, n)

/- ## Governance (governance.rs) -/

/-- Enum `ProposalState`. -/
inductive ProposalState where
  | Pending
  | Active
  | Canceled
  | Defeated
  | Succeeded
  | Queued
  | Executing
  | Executed
  | Expired
deriving DecidableEq

/-- Enum `VoteType`. -/
inductive VoteType where
  | Support
  | Against
  | Abstain
deriving DecidableEq

/-- Struct `Receipt`: a voter's recorded ballot. -/
structure Receipt where
  vote_type : VoteType
  votes : Nat
  reason : Option Position
deriving DecidableEq

/-- `Receipt::new`. -/
def Receipt.new (vote_type : VoteType) (votes : Nat) (reason : Option Position) : Receipt :=
  { vote_type := vote_type, votes := votes, reason := reason }

/-- Struct `Proposal`. -/
structure Proposal where
  id : Nat
  proposer : Nat
  title : String
  description : Position
  task : Task
  start_time : Nat
  end_time : Nat
  support_votes : Nat
  against_votes : Nat
  abstain_votes : Nat
  canceled : Bool
  executing : Bool
  executed : Bool
  receipts : List (Nat × Receipt)

/-- `Proposal::new`. -/
def Proposal.new (id : Nat) (proposer : Nat) (title : String) (description : Position)
    (target : Nat) (method : String) (arguments : List Nat) (cycles : Nat)
    (start_time : Nat) (end_time : Nat) : Proposal :=
  { id := id, proposer := proposer, title := title, description := description,
    task := Task.new target method arguments cycles,
    start_time := start_time, end_time := end_time,
    support_votes := 0, against_votes := 0, abstain_votes := 0,
    canceled := false, executed := false, executing := false, receipts := [] }

/-- A default proposal value, used only as the `List.getD` fallback when
stating theorems about concrete indices. -/
def pdflt : Proposal :=
  Proposal.new 0 0 "" { offset := 0, len := 0 } 0 "" [] 0 0 0

/-- Struct `GovernorBravo` (behavioural fields; the display-only `name`
string is kept for fidelity). -/
structure GovernorBravo where
  admin : Nat
  pending_admin : Option Nat
  name : String
  quorum_votes : Nat
  voting_delay : Nat
  voting_period : Nat
  proposal_threshold : Nat
  proposals : List Proposal
  latest_proposal_ids : List (Nat × Nat)
  gov_token : Nat
  timelock : Timelock
  stable_memory : StableMemory

/-- Result of a read-only governance call: `Ok`, `Err(&str)`, or a Rust
panic (out-of-bounds indexing). -/
inductive GovResult (α : Type) where
  | ok (a : α)
  | err (msg : String)
  | panic

/-- Outcome of a mutating governance call.  Rust methods mutate `&mut self`
in place, so an `Err` return still carries the (possibly mutated) state. -/
inductive GovOutcome (α : Type) where
  | ok (a : α) (st : GovernorBravo)
  | err (msg : String) (st : GovernorBravo)
  | panic

/-- Whether a mutating call returned `Ok`. -/
def GovOutcome.isOk {α : Type} : GovOutcome α → Bool
  | .ok _ _ => true
  | _ => false

/-- The state-evaluation expression of `GovernorBravo::get_state`
(governance.rs lines 584-602), transcribed verbatim: the `if`-chain that
classifies a proposal given the quorum configuration and the current time. -/
def Proposal.evalState (p : Proposal) (quorum_votes : Nat) (timestamp : Nat) : ProposalState :=
  if p.canceled then
    .Canceled
  else if p.start_time > timestamp then
    .Pending
  else if p.end_time > timestamp then
    .Active
  else if p.support_votes ≤ p.against_votes ∨ p.support_votes < quorum_votes then
    .Defeated
  else if p.task.eta = 0 then
    .Succeeded
  else if p.executed then
    .Executed
  else if p.executing then
    .Executing
  else if p.task.eta + GRACE_PERIOD < timestamp then
    .Expired
  else
    .Queued

/-- `GovernorBravo::get_state` (governance.rs lines 580-604), transcribed
with the bounds check exactly as written in the source:
`if id < self.proposals.len() { return Err("invalid proposal id"); }`.
The subsequent `&self.proposals[id]` panics whenever `id` is out of range. -/
def GovernorBravo.get_state (g : GovernorBravo) (id : Nat) (timestamp : Nat) :
    GovResult ProposalState :=
  if id < g.proposals.length then
    .err "invalid proposal id"
  else
    match g.proposals[id]? with
    | none => .panic
    | some p => .ok (p.evalState g.quorum_votes timestamp)

/-- The state-evaluation priority order exactly as the specification words
it (spec 4.2): canceled, then `now < startTime`, then `now < endTime`, then
the defeat test, then `eta = 0`, executed, executing, the grace-period
expiry test, and finally Queued. -/
def proposalStateSpecOrder (p : Proposal) (quorum_votes : Nat) (now : Nat) : ProposalState :=
  if p.canceled then
    .Canceled
  else if now < p.start_time then
    .Pending
  else if now < p.end_time then
    .Active
  else if p.support_votes ≤ p.against_votes ∨ p.support_votes < quorum_votes then
    .Defeated
  else if p.task.eta = 0 then
    .Succeeded
  else if p.executed then
    .Executed
  else if p.executing then
    .Executing
  else if now > p.task.eta + GRACE_PERIOD then
    .Expired
  else
    .Queued

/-- The creation tail of `GovernorBravo::propose` (governance.rs lines
361-377): persist the description, build the proposal, append it and record
it as the proposer's latest. -/
def GovernorBravo.proposeCreate (g : GovernorBravo) (proposer : Nat) (title : String)
    (description : String) (target : Nat) (method : String) (arguments : List Nat)
    (cycles : Nat) (timestamp : Nat) (growOk : Bool) : GovOutcome Nat :=
  let id := g.proposals.length
  let offset := g.stable_memory.offset
  match g.stable_memory.write description.length growOk with
  | .error _ => .err "Stable memory error" g
  | .ok (mem, len) =>
    let pos : Position := { offset := offset, len := len }
    let proposal := Proposal.new id proposer title pos target method arguments cycles
      (timestamp + g.voting_delay)
      (timestamp + g.voting_delay + g.voting_period)
    .ok id { g with proposals := g.proposals ++ [proposal],
                    latest_proposal_ids := insertKV g.latest_proposal_ids proposer id,
                    stable_memory := mem }

/-- `GovernorBravo::propose` (governance.rs lines 327-378).  `growOk`
supplies the outcome of the external `stable_grow` call inside the
stable-memory write of the description. -/
def GovernorBravo.propose (g : GovernorBravo) (proposer : Nat) (proposer_votes : Nat)
    (title : String) (description : String) (target : Nat) (method : String)
    (arguments : List Nat) (cycles : Nat) (timestamp : Nat) (growOk : Bool) :
    GovOutcome Nat :=
  if proposer_votes ≤ g.proposal_threshold then
    .err "proposer votes below proposal threshold" g
  else
    match lookupKV g.latest_proposal_ids proposer with
    | some lpi =>
      match g.get_state lpi timestamp with
      | .err e => .err e g
      | .panic => .panic
      | .ok proposal_state =>
        match proposal_state with
        | .Pending =>
          .err "one live proposal per proposer, found an already pending proposal" g
        | .Active =>
          .err "one live proposal per proposer, found an already active proposal" g
        | .Executing =>
          .err "one live proposal per proposer, found an executing proposal" g
        | _ => g.proposeCreate proposer title description target method arguments cycles
            timestamp growOk
    | none => g.proposeCreate proposer title description target method arguments cycles
        timestamp growOk

/-- Update the proposal at an index (Rust `&mut self.proposals[id]`; the
call sites reach it only after `get_state` succeeded). -/
def GovernorBravo.setProposal (g : GovernorBravo) (id : Nat) (p : Proposal) : GovernorBravo :=
  { g with proposals := g.proposals.set id p }

/-- `GovernorBravo::queue` (governance.rs lines 381-393). -/
def GovernorBravo.queue (g : GovernorBravo) (id : Nat) (timestamp : Nat) : GovOutcome Nat :=
  match g.get_state id timestamp with
  | .err e => .err e g
  | .panic => .panic
  | .ok proposal_state =>
    if proposal_state ≠ .Succeeded then
      .err "proposal can only be queued if it is succeeded" g
    else
      let eta := timestamp + g.timelock.delay
      let p := g.proposals.getD id pdflt
      let p1 := { p with task := { p.task with eta := eta } }
      let g1 := g.setProposal id p1
      .ok eta { g1 with timelock := g1.timelock.queue_transaction p1.task }

/-- The body of `GovernorBravo::pre_execute` after the state check
(governance.rs lines 402-404): set `executing := true`, then ask the
timelock to validate and dequeue.  A timelock failure returns `Err` with
the `executing` flag already set. -/
def GovernorBravo.pre_execute_body (g : GovernorBravo) (id : Nat) (timestamp : Nat) :
    GovOutcome Unit :=
  let p := g.proposals.getD id pdflt
  let p1 := { p with executing := true }
  let g1 := g.setProposal id p1
  match g1.timelock.pre_execute_transaction p1.task timestamp with
  | .error e => .err e g1
  | .ok tl => .ok () { g1 with timelock := tl }

/-- `GovernorBravo::pre_execute` (governance.rs lines 396-405). -/
def GovernorBravo.pre_execute (g : GovernorBravo) (id : Nat) (timestamp : Nat) :
    GovOutcome Unit :=
  match g.get_state id timestamp with
  | .err e => .err e g
  | .panic => .panic
  | .ok proposal_state =>
    if proposal_state ≠ .Queued then
      .err "proposal can only be executed if it is queued" g
    else
      g.pre_execute_body id timestamp

/-- `GovernorBravo::post_execute` (governance.rs lines 407-417). -/
def GovernorBravo.post_execute (g : GovernorBravo) (id : Nat) (result : Bool)
    (timestamp : Nat) : GovOutcome Unit :=
  match g.get_state id timestamp with
  | .err e => .err e g
  | .panic => .panic
  | .ok proposal_state =>
    if proposal_state ≠ .Executing then
      .err "proposal is not executing" g
    else
      let p := g.proposals.getD id pdflt
      let p1 := { p with executed := result }
      let g1 := g.setProposal id p1
      .ok () { g1 with timelock := g1.timelock.post_execute_transaction p1.task result }

/-- `GovernorBravo::cancel` (governance.rs lines 420-437), its guard
structure transcribed exactly:
`if state != Executing { return Err(..) } else if state != Executed { return Err(..) }`. -/
def GovernorBravo.cancel (g : GovernorBravo) (id : Nat) (timestamp : Nat) (caller : Nat)
    (proposer_votes : Nat) : GovOutcome Unit :=
  match g.get_state id timestamp with
  | .err e => .err e g
  | .panic => .panic
  | .ok proposal_state =>
    if proposal_state ≠ .Executing then
      .err "cannot cancel executing proposal" g
    else if proposal_state ≠ .Executed then
      .err "cannot cancel executed proposal" g
    else
      let p := g.proposals.getD id pdflt
      if caller ≠ p.proposer ∧ proposer_votes > g.proposal_threshold then
        .err "proposer above threshold" g
      else
        let p1 := { p with canceled := true }
        let g1 := g.setProposal id p1
        .ok () { g1 with timelock := g1.timelock.cancel_transaction p1.task }

/-- Result of the vote-recording body of `cast_vote`: the receipt together
with the mutated proposal and stable memory, or an error that still carries
the mutations already performed. -/
inductive VoteBodyResult where
  | ok (r : Receipt) (p : Proposal) (sm : StableMemory)
  | err (msg : String) (p : Proposal) (sm : StableMemory)

/-- The body of `GovernorBravo::cast_vote` after the state check
(governance.rs lines 453-481): add the weight to the matching tally, then
persist the optional reason (which can fail), then store the receipt,
overwriting any existing receipt of the same voter. -/
def cast_vote_body (p : Proposal) (sm : StableMemory) (vote_type : VoteType) (votes : Nat)
    (reason : Option String) (caller : Nat) (growOk : Bool) : VoteBodyResult :=
  let p1 :=
    match vote_type with
    | .Support => { p with support_votes := p.support_votes + votes }
    | .Against => { p with against_votes := p.against_votes + votes }
    | .Abstain => { p with abstain_votes := p.abstain_votes + votes }
  match reason with
  | some r =>
    let offset := sm.offset
    match sm.write r.length growOk with
    | .error _ => .err "Stable memory error" p1 sm
    | .ok (sm1, len) =>
      let receipt := Receipt.new vote_type votes (some { offset := offset, len := len })
      .ok receipt { p1 with receipts := insertKV p1.receipts caller receipt } sm1
  | none =>
    let receipt := Receipt.new vote_type votes none
    .ok receipt { p1 with receipts := insertKV p1.receipts caller receipt } sm

/-- `GovernorBravo::cast_vote` (governance.rs lines 439-482). -/
def GovernorBravo.cast_vote (g : GovernorBravo) (id : Nat) (vote_type : VoteType)
    (votes : Nat) (reason : Option String) (caller : Nat) (timestamp : Nat)
    (growOk : Bool) : GovOutcome Receipt :=
  match g.get_state id timestamp with
  | .err e => .err e g
  | .panic => .panic
  | .ok proposal_state =>
    if proposal_state ≠ .Active then
      .err "voting is closed" g
    else
      match cast_vote_body (g.proposals.getD id pdflt) g.stable_memory vote_type votes
          reason caller growOk with
      | .ok r p sm => .ok r { g.setProposal id p with stable_memory := sm }
      | .err e p sm => .err e { g.setProposal id p with stable_memory := sm }

/-- Sum of the three tally accumulators of a proposal. -/
def tallySum (p : Proposal) : Nat :=
  p.support_votes + p.against_votes + p.abstain_votes

/-- Sum of the `votes` fields over a proposal's receipts map. -/
def receiptVotesSum (p : Proposal) : Nat :=
  (p.receipts.map (fun r => r.2.votes)).sum

/- ## Governance token ledger (gov_token/src/lib.rs) -/

/-- Enum `TxError`. -/
inductive TxError where
  | InsufficientBalance
  | InsufficientAllowance
  | Unauthorized
  | LedgerTrap
  | AmountTooSmall
  | BlockUsed
  | ErrorOperationStyle
  | ErrorTo
  | Other
deriving DecidableEq

/-- Struct `CheckPoint`: a timestamped voting-power snapshot. -/
structure CheckPoint where
  timestamp : Nat
  votes : Nat
deriving DecidableEq

/-- The zero checkpoint, used only as a `List.getD` fallback. -/
def cp0 : CheckPoint :=
  { timestamp := 0, votes := 0 }

/-- The token canister's state: `StatsData` together with the `Balances`,
`Allowances`, `Delegates` and `CheckPoints` singletons.  Candid `Nat`
amounts are unbounded naturals, so they map to `Nat` directly. -/
structure LedgerState where
  logo : String
  name : String
  symbol : String
  decimals : Nat
  total_supply : Nat
  owner : Nat
  fee : Nat
  fee_to : Nat
  history_size : Nat
  deploy_time : Nat
  balances : List (Nat × Nat)
  allowances : List (Nat × List (Nat × Nat))
  delegates : List (Nat × Nat)
  checkpoints : List (Nat × List CheckPoint)

/-- `balance_of`: absent key reads as 0. -/
def balance_of (s : LedgerState) (id : Nat) : Nat :=
  lookupD s.balances id 0

/-- `allowance(owner, spender)`: absent keys read as 0. -/
def allowance (s : LedgerState) (owner : Nat) (spender : Nat) : Nat :=
  match lookupKV s.allowances owner with
  | some inner => lookupD inner spender 0
  | none => 0

/-- The stored allowance entry, distinguishing "no entry" from "entry 0"
(used to state the entry-removal behaviour of `approve`/`transfer_from`). -/
def allowanceEntry (s : LedgerState) (owner : Nat) (spender : Nat) : Option Nat :=
  match lookupKV s.allowances owner with
  | some inner => lookupKV inner spender
  | none => none

/-- The balances-map update of `_transfer` (gov_token lib.rs lines
147-161).  The recipient balance is read after the sender update, exactly
as in the source (this makes self-transfers behave correctly).  The sender
subtraction is a candid `Nat` (BigUint) subtraction that panics on
underflow in Rust; every call site guards `balance ≥ value` first, so the
`Nat` truncation here is never exercised on guarded paths. -/
def transferList (l : List (Nat × Nat)) (sender : Nat) (toAcct : Nat) (value : Nat) :
    List (Nat × Nat) :=
  let from_balance := lookupD l sender 0
  let from_balance_new := from_balance - value
  let bal1 :=
    if from_balance_new ≠ 0 then insertKV l sender from_balance_new
    else eraseKV l sender
  let to_balance := lookupD bal1 toAcct 0
  let to_balance_new := to_balance + value
  if to_balance_new ≠ 0 then insertKV bal1 toAcct to_balance_new
  else bal1

/-- `_transfer` (gov_token lib.rs lines 147-161): only the balances map
changes, as `transferList` describes. -/
def _transfer (s : LedgerState) (sender : Nat) (toAcct : Nat) (value : Nat) : LedgerState :=
  { s with balances := transferList s.balances sender toAcct value }

/-- `_charge_fee` (lines 163-168): transfers the fee only when the
configured fee is positive. -/
def _charge_fee (s : LedgerState) (user : Nat) (fee_to : Nat) (fee : Nat) : LedgerState :=
  if s.fee > 0 then _transfer s user fee_to fee else s

/-- `_get_votes` (lines 197-205): the last checkpoint's value, or 0 when the
account has no checkpoint history.  (Rust unwraps the last element of a
present entry; entries are never stored empty.) -/
def _get_votes (s : LedgerState) (who : Nat) : Nat :=
  match lookupKV s.checkpoints who with
  | some cps =>
    match cps.getLast? with
    | some c => c.votes
    | none => 0
  | none => 0

/-- `_write_check_point` (lines 207-217): overwrite the last checkpoint's
value when its timestamp equals `now`, otherwise append a new checkpoint. -/
def _write_check_point (s : LedgerState) (who : Nat) (new_votes : Nat) (now : Nat) :
    LedgerState :=
  let cps := (lookupKV s.checkpoints who).getD []
  let cps1 :=
    match cps.getLast? with
    | some lastc =>
      if lastc.timestamp = now then cps.dropLast ++ [{ timestamp := now, votes := new_votes }]
      else cps ++ [{ timestamp := now, votes := new_votes }]
    | none => [{ timestamp := now, votes := new_votes }]
  { s with checkpoints := insertKV s.checkpoints who cps1 }

/-- `_move_delegates` (lines 181-195).  The sender-side subtraction is a
BigUint subtraction in Rust (panics on underflow); modelled with truncating
`Nat` subtraction, which does not affect the balances map either way. -/
def _move_delegates (s : LedgerState) (fromD : Option Nat) (toD : Option Nat)
    (amount : Nat) (fee : Nat) (now : Nat) : LedgerState :=
  if amount > 0 then
    let s1 :=
      match fromD with
      | some f => _write_check_point s f (_get_votes s f - amount - fee) now
      | none => s
    match toD with
    | some t => _write_check_point s1 t (_get_votes s1 t + amount) now
    | none => s1
  else s

/-- `_delegate` (lines 170-179): record the delegation, then move the
caller's entire current balance of voting power. -/
def _delegate (s : LedgerState) (delegator : Nat) (delegatee : Nat) (now : Nat) :
    LedgerState × Nat :=
  let current_delegate := lookupKV s.delegates delegator
  let delegator_balance := balance_of s delegator
  let s1 := { s with delegates := insertKV s.delegates delegator delegatee }
  (_move_delegates s1 current_delegate (some delegatee) delegator_balance 0 now,
   delegator_balance)

/-- Outcome of a ledger update call.  Rust mutates singletons in place, so
an `Err` return carries the state as it stands (here always unmutated:
every guard precedes the first mutation).  `panic` models a Rust panic
(`unwrap` on a missing allowance entry, `assert!(false)`). -/
inductive LedgerResult where
  | ok (s : LedgerState)
  | err (e : TxError) (s : LedgerState)
  | panic

/-- `transfer` (lines 281-303). -/
def transfer (s : LedgerState) (caller : Nat) (toAcct : Nat) (value : Nat) (now : Nat) :
    LedgerResult :=
  if balance_of s caller < value + s.fee then
    .err .InsufficientBalance s
  else
    let s1 := _charge_fee s caller s.fee_to s.fee
    let s2 := _transfer s1 caller toAcct value
    let s3 := _move_delegates s2 (some caller) (some toAcct) value s.fee now
    .ok { s3 with history_size := s3.history_size + 1 }

/-- `transfer_from` (lines 307-355).  The allowance update unwraps the
stored entry; a missing entry (reachable only when `value + fee = 0`)
panics, as does Rust's `assert!(false)` arm. -/
def transfer_from (s : LedgerState) (caller : Nat) (sender : Nat) (toAcct : Nat) (value : Nat)
    (now : Nat) : LedgerResult :=
  let from_allowance := allowance s sender caller
  if from_allowance < value + s.fee then
    .err .InsufficientAllowance s
  else if balance_of s sender < value + s.fee then
    .err .InsufficientBalance s
  else
    let s1 := _charge_fee s sender s.fee_to s.fee
    let s2 := _transfer s1 sender toAcct value
    let s3 := _move_delegates s2 (some sender) (some toAcct) value s.fee now
    match lookupKV s3.allowances sender with
    | some inner =>
      match lookupKV inner caller with
      | some result =>
        let s4 :=
          if result - value - s.fee ≠ 0 then
            { s3 with allowances :=
                insertKV s3.allowances sender (insertKV inner caller (result - value - s.fee)) }
          else
            let temp := eraseKV inner caller
            if temp.length = 0 then { s3 with allowances := eraseKV s3.allowances sender }
            else { s3 with allowances := insertKV s3.allowances sender temp }
        .ok { s4 with history_size := s4.history_size + 1 }
      | none => .panic
    | none => .panic

/-- `approve` (lines 359-405): stores `value + fee` as the allowance,
removing the entry (and pruning an emptied inner map) when that sum is
zero. -/
def approve (s : LedgerState) (caller : Nat) (spender : Nat) (value : Nat) : LedgerResult :=
  if balance_of s caller < s.fee then
    .err .InsufficientBalance s
  else
    let s1 := _charge_fee s caller s.fee_to s.fee
    let v := value + s.fee
    let s2 :=
      match lookupKV s1.allowances caller with
      | some inner =>
        if v ≠ 0 then
          { s1 with allowances := insertKV s1.allowances caller (insertKV inner spender v) }
        else
          let temp := eraseKV inner spender
          if temp.length = 0 then { s1 with allowances := eraseKV s1.allowances caller }
          else { s1 with allowances := insertKV s1.allowances caller temp }
      | none =>
        if v ≠ 0 then
          { s1 with allowances := insertKV s1.allowances caller [(spender, v)] }
        else s1
    .ok { s2 with history_size := s2.history_size + 1 }

/-- `delegate` (lines 252-257). -/
def delegate (s : LedgerState) (caller : Nat) (delegatee : Nat) (now : Nat) : LedgerResult :=
  if balance_of s caller = 0 then
    .err .InsufficientBalance s
  else
    .ok (_delegate s caller delegatee now).1

/-- `mint` (lines 409-432): owner-gated supply increase. -/
def mint (s : LedgerState) (caller : Nat) (toAcct : Nat) (amount : Nat) : LedgerResult :=
  if caller ≠ s.owner then
    .err .Unauthorized s
  else
    let to_balance := balance_of s toAcct
    .ok { s with balances := insertKV s.balances toAcct (to_balance + amount),
                 total_supply := s.total_supply + amount,
                 history_size := s.history_size + 1 }

/-- `burn` (lines 436-459): burn from the caller's own balance.  The supply
subtraction is a BigUint subtraction; under the supply invariant the
caller's balance never exceeds the supply, so it cannot underflow. -/
def burn (s : LedgerState) (caller : Nat) (amount : Nat) : LedgerResult :=
  let caller_balance := balance_of s caller
  if caller_balance < amount then
    .err .InsufficientBalance s
  else
    .ok { s with balances := insertKV s.balances caller (caller_balance - amount),
                 total_supply := s.total_supply - amount,
                 history_size := s.history_size + 1 }

/-- `get_prior_votes`'s binary search (lib.rs lines 243-245): Rust's
`slice::binary_search_by` with comparator `item.timestamp.cmp(&timestamp)`,
transcribed as the standard two-pointer loop of the Rust standard library:
`Ok(mid)` on an exact hit, `Err(left)` with the insertion point otherwise. -/
def binSearchGo (cps : List CheckPoint) (t : Nat) (left : Nat) (right : Nat) :
    Except Nat Nat :=
  if h : left < right then
    if (cps.getD (left + (right - left) / 2) cp0).timestamp < t then
      binSearchGo cps t (left + (right - left) / 2 + 1) right
    else if t < (cps.getD (left + (right - left) / 2) cp0).timestamp then
      binSearchGo cps t left (left + (right - left) / 2)
    else .ok (left + (right - left) / 2)
  else .error left
termination_by right - left
decreasing_by
  · have hd : (right - left) / 2 < right - left := Nat.div_lt_self (by omega) (by omega)
    omega
  · have hd : (right - left) / 2 < right - left := Nat.div_lt_self (by omega) (by omega)
    omega

/-- The per-account body of `get_prior_votes` (lib.rs lines 228-248) on the
account's checkpoint sequence.  An account with no entry returns 0 (the
`None` arm); the remaining arms unwrap the newest and oldest checkpoints
and fall through to the binary search.  `unwrap_or_else(|x| x - 1)` is the
index adjustment on a miss (its `usize` subtraction cannot underflow on the
reachable branch, where the oldest checkpoint is at or before the query). -/
def getPriorVotesIn (cps : List CheckPoint) (t : Nat) : Nat :=
  match cps with
  | [] => 0
  | c0 :: rest =>
    let lastc := (c0 :: rest).getLast (List.cons_ne_nil c0 rest)
    if lastc.timestamp ≤ t then lastc.votes
    else if c0.timestamp > t then c0.votes
    else
      ((c0 :: rest).getD
        (match binSearchGo (c0 :: rest) t 0 (c0 :: rest).length with
         | .ok i => i
         | .error i => i - 1) cp0).votes

/-- `get_prior_votes(who, timestamp)` (lib.rs lines 228-248). -/
def get_prior_votes (s : LedgerState) (who : Nat) (t : Nat) : Nat :=
  match lookupKV s.checkpoints who with
  | some cps => getPriorVotesIn cps t
  | none => 0

/-- The specification's description of `getPriorVotes`, as the claim words
it: 0 with no checkpoints, 0 for a query before the oldest checkpoint, and
otherwise the value of the latest checkpoint whose timestamp is at or
before the query. -/
def priorVotesClaimed (cps : List CheckPoint) (t : Nat) : Nat :=
  match (cps.filter (fun c => c.timestamp ≤ t)).getLast? with
  | some c => c.votes
  | none => 0

/-- The amended description of `getPriorVotes` matching the source: as
`priorVotesClaimed`, except that a query predating the oldest checkpoint
returns the oldest checkpoint's value rather than 0. -/
def priorVotesAmended (cps : List CheckPoint) (t : Nat) : Nat :=
  match cps with
  | [] => 0
  | c0 :: _ =>
    match (cps.filter (fun c => c.timestamp ≤ t)).getLast? with
    | some c => c.votes
    | none => c0.votes

/-- A checkpoint sequence with strictly increasing timestamps (the shape
maintained by `_write_check_point` under monotone time). -/
def StrictCps (cps : List CheckPoint) : Prop :=
  List.Pairwise (fun a b => a.timestamp < b.timestamp) cps

/-- The balances-sum invariant, read off a ledger call outcome: any
returned state (normal or error) satisfies balances summing to the total
supply.  A panic carries no state. -/
def keepsInvariant : LedgerResult → Prop
  | .ok s => sumVals s.balances = s.total_supply
  | .err _ s => sumVals s.balances = s.total_supply
  | .panic => True

/-- The total supply read off a ledger call outcome equals `n` (panics
carry no state). -/
def supplyIs : LedgerResult → Nat → Prop
  | .ok s, n => s.total_supply = n
  | .err _ s, n => s.total_supply = n
  | .panic, _ => True

/- ## Concrete fixtures used by the closed theorems below -/

/-- A queued task with `eta = 100`. -/
def taskq : Task :=
  { target := 1, method := "m", arguments := [], cycles := 0, eta := 100 }

/-- A proposal carrying `taskq`. -/
def pq : Proposal :=
  { pdflt with task := taskq }

/-- A governor holding one queued proposal, its task in the timelock set. -/
def gq : GovernorBravo :=
  { admin := 0, pending_admin := none, name := "", quorum_votes := 0, voting_delay := 0,
    voting_period := 0, proposal_threshold := 0, proposals := [pq],
    latest_proposal_ids := [], gov_token := 0,
    timelock := { delay := 0, queued_transactions := [taskq] },
    stable_memory := { offset := 0, capacity := 0 } }

/-- A freshly configured governor with no proposals: threshold 50, voting
delay 5, voting period 10, one stable-memory page. -/
def g0 : GovernorBravo :=
  { admin := 0, pending_admin := none, name := "", quorum_votes := 100, voting_delay := 5,
    voting_period := 10, proposal_threshold := 50, proposals := [],
    latest_proposal_ids := [], gov_token := 0,
    timelock := { delay := 20, queued_transactions := [] },
    stable_memory := { offset := 0, capacity := 1 } }

/-- A ledger whose only checkpointed account, account 1, has the single
checkpoint `(timestamp 10, votes 7)`. -/
def ledger1 : LedgerState :=
  { logo := "", name := "", symbol := "", decimals := 0, total_supply := 0, owner := 0,
    fee := 0, fee_to := 0, history_size := 0, deploy_time := 0, balances := [],
    allowances := [], delegates := [],
    checkpoints := [(1, [{ timestamp := 10, votes := 7 }])] }

/-- A populated ledger: supply 10 held by accounts 1 and 2, fee 1 paid to
account 3, owner 1, one allowance of 5 from account 1 to account 2. -/
def ledger2 : LedgerState :=
  { logo := "", name := "", symbol := "", decimals := 0, total_supply := 10, owner := 1,
    fee := 1, fee_to := 3, history_size := 0, deploy_time := 0,
    balances := [(1, 6), (2, 4)], allowances := [(1, [(2, 5)])], delegates := [],
    checkpoints := [] }

/- ## Claim theorems -/

/-- C1: the claim states that `getState(id, timestamp)` returns a state
exactly when `id < proposalCount`, fails with the invalid-proposal-id error
exactly when `id ≥ proposalCount`, and never panics.  The source has the
comparison inverted: every valid id is rejected with "invalid proposal id"
and every out-of-range id panics on the subsequent index. -/
theorem get_state_bounds_inverted (g : GovernorBravo) (id : Nat) (timestamp : Nat) :
    g.get_state id timestamp =
      if id < g.proposals.length then .err "invalid proposal id" else .panic := by
  unfold GovernorBravo.get_state
  split
  · rfl
  · rename_i h
    rw [List.getElem?_eq_none (by omega)]

/-- C2: the claim states that `cancel` succeeds for the proposer (or for
anyone once the proposer fell to or below the threshold) whenever the state
is neither Executing nor Executed.  In the source, `cancel` can never
succeed: `get_state` never returns a state, and even given a state the
guard `if state != Executing { Err } else if state != Executed { Err }`
rejects every input. -/
theorem cancel_never_succeeds (g : GovernorBravo) (id : Nat) (ts : Nat) (caller : Nat)
    (pv : Nat) : (g.cancel id ts caller pv).isOk = false := by
  unfold GovernorBravo.cancel
  cases g.get_state id ts with
  | err e => rfl
  | panic => rfl
  | ok st =>
    by_cases h1 : st = ProposalState.Executing
    · subst h1
      simp [GovOutcome.isOk]
    · simp [h1, GovOutcome.isOk]

/-- C3: the claim states the timelock pre-execution step fails `NotQueued`
exactly when the task is absent, `TooEarly` below `eta`, `Stale` beyond the
grace window, and succeeds (removing the task) inside the window.  All
three guards in the source are inverted, and the two time guards together
cover every timestamp, so the step fails on every input — a queued,
in-window task is rejected with "Transaction hasn't been queued". -/
theorem execute_transaction_pre_never_succeeds (tl : Timelock) (task : Task) (ts : Nat) :
    ∃ msg, tl.execute_transaction_pre task ts = .error msg := by
  unfold Timelock.execute_transaction_pre
  split
  · exact ⟨_, rfl⟩
  · split
    · exact ⟨_, rfl⟩
    · split
      · exact ⟨_, rfl⟩
      · rename_i h1 h2 h3
        exact absurd (by omega : ts ≤ task.eta + GRACE_PERIOD) h3

/-- C5: the claim states that `propose` succeeds whenever the proposer is
above threshold and their recorded latest proposal is not in
Pending/Active/Executing.  The fresh-proposer path does behave as claimed
(sequential id, `startTime = now + votingDelay`, `endTime = startTime +
votingPeriod`, zero tallies, latest-id recorded), but because `get_state`
never returns a state, a proposer with any recorded latest proposal —
here one whose proposal evaluates to Defeated — is always rejected with
"invalid proposal id". -/
theorem propose_repeat_always_rejected :
    ∃ g1, g0.propose 7 100 "T" "" 3 "m" [] 0 0 true = .ok 0 g1 ∧
      (g1.proposals.getD 0 pdflt).start_time = 5 ∧
      (g1.proposals.getD 0 pdflt).end_time = 15 ∧
      (g1.proposals.getD 0 pdflt).support_votes = 0 ∧
      (g1.proposals.getD 0 pdflt).against_votes = 0 ∧
      (g1.proposals.getD 0 pdflt).abstain_votes = 0 ∧
      lookupKV g1.latest_proposal_ids 7 = some 0 ∧
      (g1.proposals.getD 0 pdflt).evalState g1.quorum_votes 100 = .Defeated ∧
      g1.propose 7 100 "T2" "" 3 "m" [] 0 100 true = .err "invalid proposal id" g1 :=
  ⟨_, rfl, rfl, rfl, rfl, rfl, rfl, rfl, rfl, rfl⟩

/-- C6: the state-evaluation expression of `get_state` is exactly the pure
function of `(proposal, config, now)` given by the specification's
first-match priority order. -/
theorem evalState_matches_spec_order (p : Proposal) (quorum_votes : Nat) (now : Nat) :
    p.evalState quorum_votes now = proposalStateSpecOrder p quorum_votes now := rfl

/-- C7: the claim states the tallies always equal the sum of the receipts'
votes — equivalently that a second `castVote` by the same voter does not
add its weight twice.  The vote-recording body of `cast_vote` adds the
weight to the tally on every call while overwriting the receipt: after the
same voter votes weight 5 twice, the tallies sum to 10 but the receipts sum
to 5. -/
theorem cast_vote_body_double_counts :
    ∃ r1 p1 sm1 r2 p2 sm2,
      cast_vote_body pdflt { offset := 0, capacity := 0 } .Support 5 none 9 true
          = .ok r1 p1 sm1 ∧
      cast_vote_body p1 sm1 .Support 5 none 9 true = .ok r2 p2 sm2 ∧
      tallySum p2 = 10 ∧ receiptVotesSum p2 = 5 :=
  ⟨_, _, _, _, _, _, rfl, rfl, rfl, rfl⟩

/-- C8: the claim states every operation either fully commits or errors
with no state change; in particular `castVote` leaves the tallies unchanged
when the reason write fails, and `preExecute` leaves the `executing` flag
unchanged when the timelock validation fails.  The source mutates first:
the vote body increments the tally before the fallible stable-memory write,
and `pre_execute` sets `executing := true` before the fallible timelock
validation — both error paths return with the mutation applied. -/
theorem mutation_precedes_validation :
    (∃ p1, cast_vote_body pdflt { offset := 0, capacity := 0 } .Support 5 (some "r") 9 false
        = .err "Stable memory error" p1 { offset := 0, capacity := 0 } ∧
      p1.support_votes = 5) ∧
    (∃ g1, gq.pre_execute_body 0 50 = .err "TooEarly" g1 ∧
      (g1.proposals.getD 0 pdflt).executing = true) :=
  ⟨⟨_, rfl, rfl⟩, ⟨_, rfl, rfl⟩⟩

/- ## Binary-search correctness for `get_prior_votes` (claim C4) -/

/-- In a strictly sorted checkpoint list, earlier indices carry strictly
smaller timestamps. -/
theorem strict_getD {cps : List CheckPoint} (hs : StrictCps cps) {i j : Nat}
    (hij : i < j) (hj : j < cps.length) :
    (cps.getD i cp0).timestamp < (cps.getD j cp0).timestamp := by
  have hi : i < cps.length := Nat.lt_trans hij hj
  rw [List.getD_eq_getElem cps cp0 hi, List.getD_eq_getElem cps cp0 hj]
  exact List.pairwise_iff_getElem.mp hs i j hi hj hij

/-- Loop invariant of `binary_search_by`: everything left of `left` is
strictly below the query, everything from `right` on is strictly above it.
On an exact hit the returned index carries the query timestamp; on a miss
the insertion point separates the below-query prefix from the above-query
suffix. -/
theorem binSearchGo_invariant (cps : List CheckPoint) (t : Nat) (hs : StrictCps cps) :
    ∀ n left right, right - left ≤ n → left ≤ right → right ≤ cps.length →
    (∀ i, i < left → (cps.getD i cp0).timestamp < t) →
    (∀ i, right ≤ i → i < cps.length → t < (cps.getD i cp0).timestamp) →
    (match binSearchGo cps t left right with
     | .ok m => m < cps.length ∧ (cps.getD m cp0).timestamp = t
     | .error x => x ≤ cps.length ∧ (∀ i, i < x → (cps.getD i cp0).timestamp < t) ∧
         (∀ i, x ≤ i → i < cps.length → t < (cps.getD i cp0).timestamp)) := by
  intro n
  induction n with
  | zero =>
    intro left right hn hlr hrl hlo hhi
    rw [binSearchGo]
    rw [dif_neg (by omega)]
    exact ⟨by omega, hlo, fun i hi hlen => hhi i (by omega) hlen⟩
  | succ n ih =>
    intro left right hn hlr hrl hlo hhi
    rw [binSearchGo]
    by_cases hcond : left < right
    · rw [dif_pos hcond]
      have hmlt : left + (right - left) / 2 < right := by
        have := Nat.div_lt_self (by omega : 0 < right - left) (by omega : 1 < 2)
        omega
      have hmln : left + (right - left) / 2 < cps.length := by omega
      by_cases h1 : (cps.getD (left + (right - left) / 2) cp0).timestamp < t
      · rw [if_pos h1]
        refine ih (left + (right - left) / 2 + 1) right (by omega) (by omega) hrl ?_ hhi
        intro i hi
        rcases Nat.lt_or_ge i left with hc | hc
        · exact hlo i hc
        · rcases Nat.lt_or_ge i (left + (right - left) / 2) with hc2 | hc2
          · exact Nat.lt_trans (strict_getD hs hc2 hmln) h1
          · have : i = left + (right - left) / 2 := by omega
            rw [this]
            exact h1
      · rw [if_neg h1]
        by_cases h2 : t < (cps.getD (left + (right - left) / 2) cp0).timestamp
        · rw [if_pos h2]
          refine ih left (left + (right - left) / 2) (by omega) (by omega) (by omega) hlo ?_
          intro i hi hil
          rcases Nat.lt_or_ge (left + (right - left) / 2) i with hc | hc
          · exact Nat.lt_trans h2 (strict_getD hs hc hil)
          · have : i = left + (right - left) / 2 := by omega
            rw [this]
            exact h2
        · rw [if_neg h2]
          exact ⟨hmln, by omega⟩
    · rw [dif_neg hcond]
      exact ⟨by omega, hlo, fun i hi hlen => hhi i (by omega) hlen⟩

/-- If index `i` is the last index whose timestamp is at or below `t` (all
indices up to `i` are at or below, all beyond are above), then the
`timestamp ≤ t` filter of the list ends exactly at element `i`. -/
theorem filter_le_getLast_eq (t : Nat) :
    ∀ (cps : List CheckPoint) (i : Nat), i < cps.length →
    (∀ j, j ≤ i → j < cps.length → (cps.getD j cp0).timestamp ≤ t) →
    (∀ j, i < j → j < cps.length → t < (cps.getD j cp0).timestamp) →
    (cps.filter (fun c => c.timestamp ≤ t)).getLast? = some (cps.getD i cp0) := by
  intro cps
  induction cps with
  | nil =>
    intro i hi
    exact absurd hi (by simp)
  | cons c cs ih =>
    intro i hi hle hgt
    have hc : c.timestamp ≤ t := by
      have := hle 0 (by omega) (by simp)
      simpa using this
    rw [List.filter_cons_of_pos (by simpa using hc)]
    cases i with
    | zero =>
      have hnil : cs.filter (fun c => c.timestamp ≤ t) = [] := by
        rw [List.filter_eq_nil_iff]
        intro a ha
        obtain ⟨j, hj, rfl⟩ := List.mem_iff_getElem.mp ha
        have hj2 := hgt (j + 1) (by omega) (by simp only [List.length_cons]; omega)
        simp only [List.getD_cons_succ] at hj2
        rw [List.getD_eq_getElem cs cp0 hj] at hj2
        simp only [decide_eq_true_eq]
        omega
      rw [hnil]
      simp
    | succ k =>
      have hk : k < cs.length := by
        simp only [List.length_cons] at hi
        omega
      have hne : cs.filter (fun c => c.timestamp ≤ t) ≠ [] := by
        intro hnil
        have hmem : cs[k] ∈ cs.filter (fun c => c.timestamp ≤ t) := by
          apply List.mem_filter.mpr
          refine ⟨List.getElem_mem hk, ?_⟩
          have := hle (k + 1) (Nat.le_refl _) (by simp only [List.length_cons]; omega)
          simp only [List.getD_cons_succ] at this
          rw [List.getD_eq_getElem cs cp0 hk] at this
          simpa using this
        rw [hnil] at hmem
        exact absurd hmem (List.not_mem_nil _)
      obtain ⟨b, l2, hbl⟩ := List.exists_cons_of_ne_nil hne
      rw [hbl, List.getLast?_cons_cons, ← hbl, List.getD_cons_succ]
      refine ih k hk ?_ ?_
      · intro j hj hjl
        have := hle (j + 1) (by omega) (by simp only [List.length_cons]; omega)
        simpa only [List.getD_cons_succ] using this
      · intro j hj hjl
        have := hgt (j + 1) (by omega) (by simp only [List.length_cons]; omega)
        simpa only [List.getD_cons_succ] using this

/-- The per-account body of `get_prior_votes` computes `priorVotesAmended`
on every strictly sorted checkpoint sequence. -/
theorem getPriorVotesIn_eq_amended (cps : List CheckPoint) (t : Nat) (hs : StrictCps cps) :
    getPriorVotesIn cps t = priorVotesAmended cps t := by
  cases cps with
  | nil => rfl
  | cons c0 rest =>
    simp only [getPriorVotesIn, priorVotesAmended]
    have hlen : (c0 :: rest).length = rest.length + 1 := by simp
    have hlast_eq : ((c0 :: rest).getLast (List.cons_ne_nil c0 rest)) =
        (c0 :: rest).getD ((c0 :: rest).length - 1) cp0 := by
      rw [List.getD_eq_getElem _ cp0 (by simp only [List.length_cons]; omega)]
      exact List.getLast_eq_getElem _ _
    by_cases h1 : ((c0 :: rest).getLast (List.cons_ne_nil c0 rest)).timestamp ≤ t
    · rw [if_pos h1]
      have hfl := filter_le_getLast_eq t (c0 :: rest) ((c0 :: rest).length - 1)
        (by simp only [List.length_cons]; omega)
        (by
          intro j hj hjl
          rcases Nat.lt_or_ge j ((c0 :: rest).length - 1) with hc | hc
          · refine Nat.le_of_lt (Nat.lt_of_lt_of_le
              (strict_getD hs hc (by simp only [List.length_cons]; omega)) ?_)
            rw [← hlast_eq]
            exact h1
          · have : j = (c0 :: rest).length - 1 := by omega
            rw [this, ← hlast_eq]
            exact h1)
        (by
          intro j hj hjl
          simp only [List.length_cons] at hj hjl
          omega)
      rw [hfl, hlast_eq]
    · rw [if_neg h1]
      by_cases h2 : c0.timestamp > t
      · rw [if_pos h2]
        have hnil : (c0 :: rest).filter (fun c => c.timestamp ≤ t) = [] := by
          rw [List.filter_eq_nil_iff]
          intro a ha
          obtain ⟨j, hj, rfl⟩ := List.mem_iff_getElem.mp ha
          have hts : t < (c0 :: rest)[j].timestamp := by
            cases j with
            | zero => simpa using h2
            | succ k =>
              have hstep := strict_getD hs (by omega : 0 < k + 1) hj
              rw [List.getD_eq_getElem _ cp0 hj] at hstep
              have h0 : (c0 :: rest).getD 0 cp0 = c0 := List.getD_cons_zero
              rw [h0] at hstep
              omega
          simp only [decide_eq_true_eq]
          omega
        rw [hnil]
        rfl
      · rw [if_neg h2]
        have h1' : t < ((c0 :: rest).getD ((c0 :: rest).length - 1) cp0).timestamp := by
          rw [← hlast_eq]
          omega
        have h2' : ((c0 :: rest).getD 0 cp0).timestamp ≤ t := by
          rw [List.getD_cons_zero]
          omega
        have hinv := binSearchGo_invariant (c0 :: rest) t hs (c0 :: rest).length 0
          (c0 :: rest).length (by omega) (by omega) (Nat.le_refl _)
          (by intro i hi; omega)
          (by intro i hi hil; omega)
        cases hbs : binSearchGo (c0 :: rest) t 0 (c0 :: rest).length with
        | ok m =>
          rw [hbs] at hinv
          obtain ⟨hm, hts⟩ := hinv
          have hfl := filter_le_getLast_eq t (c0 :: rest) m hm
            (by
              intro j hj hjl
              rcases Nat.lt_or_ge j m with hc | hc
              · exact Nat.le_of_lt (Nat.lt_of_lt_of_eq (strict_getD hs hc hm) hts)
              · have : j = m := by omega
                rw [this, hts])
            (by
              intro j hj hjl
              have := strict_getD hs hj hjl
              omega)
          rw [hfl]
        | error x =>
          rw [hbs] at hinv
          obtain ⟨hxle, hxlo, hxhi⟩ := hinv
          have hx1 : 1 ≤ x := by
            by_contra hx0
            have := hxhi 0 (by omega) (by simp only [List.length_cons]; omega)
            rw [List.getD_cons_zero] at this
            omega
          have hfl := filter_le_getLast_eq t (c0 :: rest) (x - 1) (by omega)
            (by
              intro j hj hjl
              have := hxlo j (by omega)
              omega)
            (by
              intro j hj hjl
              exact hxhi j (by omega) hjl)
          rw [hfl]

/-- C4 (amended): `getPriorVotes(a, t)` returns 0 when the account has no
checkpoints; when `t` is earlier than the oldest checkpoint it returns the
OLDEST checkpoint's votes (not 0 as the claim states); otherwise it returns
the votes of the latest checkpoint whose timestamp is at or before `t`. -/
theorem get_prior_votes_eq_amended (s : LedgerState) (who : Nat) (t : Nat)
    (hs : ∀ cps, lookupKV s.checkpoints who = some cps → StrictCps cps) :
    get_prior_votes s who t =
      match lookupKV s.checkpoints who with
      | some cps => priorVotesAmended cps t
      | none => 0 := by
  unfold get_prior_votes
  cases h : lookupKV s.checkpoints who with
  | none => rfl
  | some cps => exact getPriorVotesIn_eq_amended cps t (hs cps h)

/-- Witness for C4's amended theorem at the concrete ledger `ledger1`
(account 1 with the single checkpoint `(10, 7)`). -/
theorem get_prior_votes_eq_amended_witness :
    get_prior_votes ledger1 1 3 =
      match lookupKV ledger1.checkpoints 1 with
      | some cps => priorVotesAmended cps 3
      | none => 0 := by
  refine get_prior_votes_eq_amended ledger1 1 3 ?_
  intro cps hc
  have : cps = [{ timestamp := 10, votes := 7 }] := by
    have heval : lookupKV ledger1.checkpoints 1 = some [{ timestamp := 10, votes := 7 }] := rfl
    rw [heval] at hc
    exact (Option.some_injective _ hc).symm
  rw [this]
  exact List.pairwise_singleton _ _

/-- C4 counterexample: account 1's only checkpoint has timestamp 10, the
query timestamp 3 predates it, yet `get_prior_votes` returns that
checkpoint's value 7 instead of the 0 the claim requires. -/
theorem get_prior_votes_prehistory_counterexample :
    lookupKV ledger1.checkpoints 1 = some [{ timestamp := 10, votes := 7 }] ∧
    (3 : Nat) < 10 ∧
    get_prior_votes ledger1 1 3 = 7 ∧
    (7 : Nat) ≠ 0 :=
  ⟨rfl, by omega, rfl, by omega⟩

/- ## Association-list lemmas (for claims C9 and C10) -/

/-- Erasing one key leaves lookups of other keys unchanged. -/
theorem lookupKV_eraseKV_ne {α : Type} [DecidableEq α] {β : Type} (l : List (α × β))
    (a c : α) (h : c ≠ a) : lookupKV (eraseKV l a) c = lookupKV l c := by
  induction l with
  | nil => rfl
  | cons kv t ih =>
    obtain ⟨k, v⟩ := kv
    simp only [eraseKV]
    by_cases hk : k = a
    · rw [if_pos hk]
      simp only [lookupKV]
      rw [if_neg (show ¬k = c from fun he => h (he ▸ hk))]
    · rw [if_neg hk]
      simp only [lookupKV]
      by_cases hc : k = c
      · rw [if_pos hc, if_pos hc]
      · rw [if_neg hc, if_neg hc, ih]

/-- Looking up the freshly inserted key returns the new value. -/
theorem lookupKV_insertKV_self {α : Type} [DecidableEq α] {β : Type} (l : List (α × β))
    (a : α) (b : β) : lookupKV (insertKV l a b) a = some b := by
  simp [insertKV, lookupKV]

/-- Inserting one key leaves lookups of other keys unchanged. -/
theorem lookupKV_insertKV_ne {α : Type} [DecidableEq α] {β : Type} (l : List (α × β))
    (a c : α) (b : β) (h : c ≠ a) : lookupKV (insertKV l a b) c = lookupKV l c := by
  simp only [insertKV, lookupKV]
  rw [if_neg (fun he => h he.symm)]
  exact lookupKV_eraseKV_ne l a c h

/-- With no duplicate keys, erasing a key makes its lookup `none`. -/
theorem lookupKV_eraseKV_self {α : Type} [DecidableEq α] {β : Type} (l : List (α × β))
    (a : α) (h : NodupKeys l) : lookupKV (eraseKV l a) a = none := by
  induction l with
  | nil => rfl
  | cons kv t ih =>
    obtain ⟨k, v⟩ := kv
    simp only [NodupKeys, List.map_cons, List.nodup_cons] at h
    simp only [eraseKV]
    by_cases hk : k = a
    · rw [if_pos hk]
      subst hk
      cases hl : lookupKV t k with
      | none => rfl
      | some v2 =>
        exfalso
        apply h.1
        clear ih h
        induction t with
        | nil => exact absurd hl (by simp [lookupKV])
        | cons kv2 t2 ih2 =>
          obtain ⟨k2, v2'⟩ := kv2
          simp only [lookupKV] at hl
          by_cases hk2 : k2 = k
          · simp [hk2]
          · rw [if_neg hk2] at hl
            simp only [List.map_cons, List.mem_cons]
            exact Or.inr (ih2 hl)
    · rw [if_neg hk, lookupKV, if_neg hk]
      exact ih h.2

/-- `lookupD` of the freshly inserted key. -/
theorem lookupD_insertKV_self {α : Type} [DecidableEq α] (l : List (α × Nat)) (a : α)
    (b : Nat) : lookupD (insertKV l a b) a 0 = b := by
  simp [lookupD, lookupKV_insertKV_self]

/-- `lookupD` of another key after an insert. -/
theorem lookupD_insertKV_ne {α : Type} [DecidableEq α] (l : List (α × Nat)) (a c : α)
    (b : Nat) (h : c ≠ a) : lookupD (insertKV l a b) c 0 = lookupD l c 0 := by
  simp only [lookupD]
  rw [lookupKV_insertKV_ne _ _ _ _ h]

/-- `lookupD` of an erased key, under unique keys. -/
theorem lookupD_eraseKV_self {α : Type} [DecidableEq α] (l : List (α × Nat)) (a : α)
    (h : NodupKeys l) : lookupD (eraseKV l a) a 0 = 0 := by
  simp only [lookupD]
  rw [lookupKV_eraseKV_self _ _ h]
  rfl

/-- `lookupD` of another key after an erase. -/
theorem lookupD_eraseKV_ne {α : Type} [DecidableEq α] (l : List (α × Nat)) (a c : α)
    (h : c ≠ a) : lookupD (eraseKV l a) c 0 = lookupD l c 0 := by
  simp only [lookupD]
  rw [lookupKV_eraseKV_ne _ _ _ h]

/-- The keys of `eraseKV l a` form a sublist of the keys of `l`. -/
theorem keys_eraseKV_sublist {α : Type} [DecidableEq α] {β : Type} (l : List (α × β))
    (a : α) : ((eraseKV l a).map (fun p => p.1)).Sublist (l.map (fun p => p.1)) := by
  induction l with
  | nil => simp [eraseKV]
  | cons kv t ih =>
    obtain ⟨k, v⟩ := kv
    simp only [eraseKV]
    by_cases hk : k = a
    · rw [if_pos hk]
      exact List.sublist_cons_of_sublist _ (List.Sublist.refl _)
    · rw [if_neg hk]
      simp only [List.map_cons]
      exact List.Sublist.cons₂ _ ih

/-- Erasing preserves key uniqueness. -/
theorem nodupKeys_eraseKV {α : Type} [DecidableEq α] {β : Type} (l : List (α × β))
    (a : α) (h : NodupKeys l) : NodupKeys (eraseKV l a) :=
  (keys_eraseKV_sublist l a).nodup h

/-- A key whose lookup is `none` does not occur among the keys. -/
theorem not_mem_keys_of_lookup_none {α : Type} [DecidableEq α] {β : Type}
    (l : List (α × β)) (a : α) (h : lookupKV l a = none) :
    a ∉ l.map (fun p => p.1) := by
  induction l with
  | nil => simp
  | cons kv t ih =>
    obtain ⟨k, v⟩ := kv
    simp only [lookupKV] at h
    by_cases hk : k = a
    · rw [if_pos hk] at h
      exact absurd h (by simp)
    · rw [if_neg hk] at h
      simp only [List.map_cons, List.mem_cons]
      rintro (rfl | hmem)
      · exact hk rfl
      · exact ih h hmem

/-- Inserting preserves key uniqueness. -/
theorem nodupKeys_insertKV {α : Type} [DecidableEq α] {β : Type} (l : List (α × β))
    (a : α) (b : β) (h : NodupKeys l) : NodupKeys (insertKV l a b) := by
  simp only [NodupKeys, insertKV, List.map_cons, List.nodup_cons]
  exact ⟨not_mem_keys_of_lookup_none _ a (lookupKV_eraseKV_self l a h),
    nodupKeys_eraseKV l a h⟩

/-- Decomposition of the sum: the looked-up value of a key plus the sum
after erasing it gives the original sum. -/
theorem sumVals_eraseKV_add_lookup {α : Type} [DecidableEq α] (l : List (α × Nat))
    (a : α) : sumVals l = lookupD l a 0 + sumVals (eraseKV l a) := by
  induction l with
  | nil => rfl
  | cons kv t ih =>
    obtain ⟨k, v⟩ := kv
    simp only [sumVals, lookupD, lookupKV, eraseKV, List.map_cons, List.sum_cons]
    by_cases hk : k = a
    · rw [if_pos hk, if_pos hk]
      rfl
    · rw [if_neg hk, if_neg hk]
      simp only [sumVals, lookupD] at ih
      simp only [List.map_cons, List.sum_cons]
      omega

/-- The sum after an insert. -/
theorem sumVals_insertKV {α : Type} [DecidableEq α] (l : List (α × Nat)) (a : α)
    (b : Nat) : sumVals (insertKV l a b) = b + sumVals (eraseKV l a) := rfl

/-- One subtracting account update of `_transfer` (debit `v`, removing a
zeroed entry) decreases the balances sum by exactly `v`. -/
theorem sumVals_sub_update {α : Type} [DecidableEq α] (l : List (α × Nat)) (k : α)
    (v : Nat) (h : v ≤ lookupD l k 0) :
    sumVals (if lookupD l k 0 - v ≠ 0 then insertKV l k (lookupD l k 0 - v)
      else eraseKV l k) + v = sumVals l := by
  have he := sumVals_eraseKV_add_lookup l k
  by_cases h1 : lookupD l k 0 - v ≠ 0
  · rw [if_pos h1, sumVals_insertKV]
    omega
  · rw [if_neg h1]
    omega

/-- One adding account update of `_transfer` (credit `v`, skipping the
store of a zero) increases the balances sum by exactly `v`. -/
theorem sumVals_add_update {α : Type} [DecidableEq α] (l : List (α × Nat)) (k : α)
    (v : Nat) :
    sumVals (if lookupD l k 0 + v ≠ 0 then insertKV l k (lookupD l k 0 + v) else l) =
      sumVals l + v := by
  have he := sumVals_eraseKV_add_lookup l k
  by_cases h1 : lookupD l k 0 + v ≠ 0
  · rw [if_pos h1, sumVals_insertKV]
    omega
  · rw [if_neg h1]
    omega

/- ## Field-invariance lemmas for the ledger primitives -/

/-- `_transfer` does not change the total supply. -/
theorem _transfer_total_supply (s : LedgerState) (f t v : Nat) :
    (_transfer s f t v).total_supply = s.total_supply := rfl

/-- `_transfer` does not change the allowances. -/
theorem _transfer_allowances (s : LedgerState) (f t v : Nat) :
    (_transfer s f t v).allowances = s.allowances := rfl

/-- `_charge_fee` does not change the total supply. -/
theorem _charge_fee_total_supply (s : LedgerState) (u ft f : Nat) :
    (_charge_fee s u ft f).total_supply = s.total_supply := by
  unfold _charge_fee
  split <;> rfl

/-- `_charge_fee` does not change the allowances. -/
theorem _charge_fee_allowances (s : LedgerState) (u ft f : Nat) :
    (_charge_fee s u ft f).allowances = s.allowances := by
  unfold _charge_fee
  split <;> rfl

/-- `_charge_fee` does not change the fee configuration itself. -/
theorem _charge_fee_fee (s : LedgerState) (u ft f : Nat) :
    (_charge_fee s u ft f).fee = s.fee := by
  unfold _charge_fee
  split <;> rfl

/-- `_write_check_point` touches only the checkpoints. -/
theorem _write_check_point_balances (s : LedgerState) (who nv now : Nat) :
    (_write_check_point s who nv now).balances = s.balances := rfl

/-- `_write_check_point` does not change the total supply. -/
theorem _write_check_point_total_supply (s : LedgerState) (who nv now : Nat) :
    (_write_check_point s who nv now).total_supply = s.total_supply := rfl

/-- `_write_check_point` does not change the allowances. -/
theorem _write_check_point_allowances (s : LedgerState) (who nv now : Nat) :
    (_write_check_point s who nv now).allowances = s.allowances := rfl

/-- `_move_delegates` touches only the checkpoints. -/
theorem _move_delegates_balances (s : LedgerState) (fromD toD : Option Nat)
    (amount fee now : Nat) :
    (_move_delegates s fromD toD amount fee now).balances = s.balances := by
  unfold _move_delegates
  by_cases h : amount > 0
  · rw [if_pos h]
    cases fromD <;> cases toD <;>
      simp [_write_check_point_balances]
  · rw [if_neg h]

/-- `_move_delegates` does not change the total supply. -/
theorem _move_delegates_total_supply (s : LedgerState) (fromD toD : Option Nat)
    (amount fee now : Nat) :
    (_move_delegates s fromD toD amount fee now).total_supply = s.total_supply := by
  unfold _move_delegates
  by_cases h : amount > 0
  · rw [if_pos h]
    cases fromD <;> cases toD <;>
      simp [_write_check_point_total_supply]
  · rw [if_neg h]

/-- `_move_delegates` does not change the allowances. -/
theorem _move_delegates_allowances (s : LedgerState) (fromD toD : Option Nat)
    (amount fee now : Nat) :
    (_move_delegates s fromD toD amount fee now).allowances = s.allowances := by
  unfold _move_delegates
  by_cases h : amount > 0
  · rw [if_pos h]
    cases fromD <;> cases toD <;>
      simp [_write_check_point_allowances]
  · rw [if_neg h]

/-- The looked-up balance of the debited key after the sender phase of
`transferList` (unique keys make the zero-removal branch read back as 0). -/
theorem lookupD_debit (l : List (Nat × Nat)) (f v : Nat) (hnd : NodupKeys l) :
    lookupD (if lookupD l f 0 - v ≠ 0 then insertKV l f (lookupD l f 0 - v)
      else eraseKV l f) f 0 = lookupD l f 0 - v := by
  by_cases h1 : lookupD l f 0 - v ≠ 0
  · rw [if_pos h1, lookupD_insertKV_self]
  · rw [if_neg h1, lookupD_eraseKV_self _ _ hnd]
    omega

/-- `transferList` preserves the balances sum whenever the debited account
can cover the transferred value (as every call site guarantees). -/
theorem sumVals_transferList (l : List (Nat × Nat)) (f t v : Nat)
    (h : v ≤ lookupD l f 0) : sumVals (transferList l f t v) = sumVals l := by
  unfold transferList
  simp only
  rw [sumVals_add_update]
  exact sumVals_sub_update l f v h

/-- The debited account's balance after `transferList`. -/
theorem lookupD_transferList_sender (l : List (Nat × Nat)) (f t v : Nat)
    (hnd : NodupKeys l) (h : v ≤ lookupD l f 0) :
    lookupD (transferList l f t v) f 0 =
      if t = f then lookupD l f 0 else lookupD l f 0 - v := by
  unfold transferList
  simp only
  set b1 := if lookupD l f 0 - v ≠ 0 then insertKV l f (lookupD l f 0 - v)
    else eraseKV l f with hb1
  have hd : lookupD b1 f 0 = lookupD l f 0 - v := lookupD_debit l f v hnd
  by_cases ht : t = f
  · rw [if_pos ht, ht]
    by_cases h2 : lookupD b1 f 0 + v ≠ 0
    · rw [if_pos h2, lookupD_insertKV_self]
      omega
    · rw [if_neg h2]
      omega
  · rw [if_neg ht]
    by_cases h2 : lookupD b1 t 0 + v ≠ 0
    · rw [if_pos h2, lookupD_insertKV_ne _ _ _ _ (fun he => ht he.symm)]
      exact hd
    · rw [if_neg h2]
      exact hd

/-- `transferList` preserves key uniqueness. -/
theorem nodupKeys_transferList (l : List (Nat × Nat)) (f t v : Nat)
    (hnd : NodupKeys l) : NodupKeys (transferList l f t v) := by
  unfold transferList
  simp only
  set b1 := if lookupD l f 0 - v ≠ 0 then insertKV l f (lookupD l f 0 - v)
    else eraseKV l f with hb1
  have h1 : NodupKeys b1 := by
    rw [hb1]
    by_cases h2 : lookupD l f 0 - v ≠ 0
    · rw [if_pos h2]
      exact nodupKeys_insertKV _ _ _ hnd
    · rw [if_neg h2]
      exact nodupKeys_eraseKV _ _ hnd
  by_cases h2 : lookupD b1 t 0 + v ≠ 0
  · rw [if_pos h2]
    exact nodupKeys_insertKV _ _ _ h1
  · rw [if_neg h2]
    exact h1

/-- `balance_of` reads the balances map with default 0. -/
theorem balance_of_eq (s : LedgerState) (x : Nat) :
    balance_of s x = lookupD s.balances x 0 := rfl

/-- `_transfer` changes exactly the balances map, via `transferList`. -/
theorem _transfer_balances (s : LedgerState) (f t v : Nat) :
    (_transfer s f t v).balances = transferList s.balances f t v := rfl

/-- `_charge_fee` (with the state's own fee, as at every call site)
preserves the balances sum when the charged account covers the fee. -/
theorem sumVals_charge_fee (s : LedgerState) (u ft : Nat)
    (h : s.fee ≤ balance_of s u) :
    sumVals (_charge_fee s u ft s.fee).balances = sumVals s.balances := by
  unfold _charge_fee
  split
  · rw [_transfer_balances]
    exact sumVals_transferList _ _ _ _ h
  · rfl

/-- The charged account keeps at least its balance minus the fee. -/
theorem balance_of_charge_fee_ge (s : LedgerState) (u ft : Nat)
    (hnd : NodupKeys s.balances) (h : s.fee ≤ balance_of s u) :
    balance_of s u - s.fee ≤ balance_of (_charge_fee s u ft s.fee) u := by
  unfold _charge_fee
  split
  · rw [show balance_of (_transfer s u ft s.fee) u =
        lookupD (transferList s.balances u ft s.fee) u 0 from rfl]
    rw [lookupD_transferList_sender s.balances u ft s.fee hnd h]
    rw [balance_of_eq]
    split <;> omega
  · omega

/-- `_charge_fee` preserves key uniqueness of the balances map. -/
theorem nodupKeys_charge_fee (s : LedgerState) (u ft f : Nat)
    (hnd : NodupKeys s.balances) : NodupKeys (_charge_fee s u ft f).balances := by
  unfold _charge_fee
  split
  · rw [_transfer_balances]
    exact nodupKeys_transferList _ _ _ _ hnd
  · exact hnd

/- ## Per-operation sum-invariant lemmas (claim C9) -/

/-- `transfer` preserves the sum invariant and the total supply. -/
theorem transfer_keeps (s : LedgerState) (caller toA value now : Nat)
    (hnd : NodupKeys s.balances) (hinv : sumVals s.balances = s.total_supply) :
    keepsInvariant (transfer s caller toA value now) ∧
    supplyIs (transfer s caller toA value now) s.total_supply := by
  unfold transfer
  by_cases hg : balance_of s caller < value + s.fee
  · rw [if_pos hg]
    exact ⟨hinv, rfl⟩
  · rw [if_neg hg]
    push_neg at hg
    have hfee : s.fee ≤ balance_of s caller := by omega
    have hb1 : value ≤ balance_of (_charge_fee s caller s.fee_to s.fee) caller := by
      have := balance_of_charge_fee_ge s caller s.fee_to hnd hfee
      omega
    constructor
    · simp only [keepsInvariant]
      rw [_move_delegates_balances, _move_delegates_total_supply, _transfer_total_supply,
        _charge_fee_total_supply, _transfer_balances]
      rw [sumVals_transferList _ _ _ _ hb1]
      rw [sumVals_charge_fee s caller s.fee_to hfee]
      exact hinv
    · simp only [supplyIs]
      rw [_move_delegates_total_supply, _transfer_total_supply, _charge_fee_total_supply]

/-- `transfer_from` preserves the sum invariant and the total supply. -/
theorem transfer_from_keeps (s : LedgerState) (caller sender toA value now : Nat)
    (hnd : NodupKeys s.balances) (hinv : sumVals s.balances = s.total_supply) :
    keepsInvariant (transfer_from s caller sender toA value now) ∧
    supplyIs (transfer_from s caller sender toA value now) s.total_supply := by
  unfold transfer_from
  by_cases hg1 : allowance s sender caller < value + s.fee
  · rw [if_pos hg1]
    exact ⟨hinv, rfl⟩
  · rw [if_neg hg1]
    by_cases hg2 : balance_of s sender < value + s.fee
    · rw [if_pos hg2]
      exact ⟨hinv, rfl⟩
    · rw [if_neg hg2]
      push_neg at hg1 hg2
      have hfee : s.fee ≤ balance_of s sender := by omega
      have hb1 : value ≤ balance_of (_charge_fee s sender s.fee_to s.fee) sender := by
        have := balance_of_charge_fee_ge s sender s.fee_to hnd hfee
        omega
      have hsum : sumVals (_move_delegates
          (_transfer (_charge_fee s sender s.fee_to s.fee) sender toA value)
          (some sender) (some toA) value s.fee now).balances = s.total_supply := by
        rw [_move_delegates_balances, _transfer_balances]
        rw [sumVals_transferList _ _ _ _ hb1]
        rw [sumVals_charge_fee s sender s.fee_to hfee]
        exact hinv
      have hts : (_move_delegates
          (_transfer (_charge_fee s sender s.fee_to s.fee) sender toA value)
          (some sender) (some toA) value s.fee now).total_supply = s.total_supply := by
        rw [_move_delegates_total_supply, _transfer_total_supply, _charge_fee_total_supply]
      have hA : (_move_delegates
          (_transfer (_charge_fee s sender s.fee_to s.fee) sender toA value)
          (some sender) (some toA) value s.fee now).allowances = s.allowances := by
        rw [_move_delegates_allowances, _transfer_allowances, _charge_fee_allowances]
      simp only
      rw [hA]
      cases hAl : lookupKV s.allowances sender with
      | none =>
        dsimp only
        exact ⟨trivial, trivial⟩
      | some inner =>
        dsimp only
        cases hIn : lookupKV inner caller with
        | none =>
          dsimp only
          exact ⟨trivial, trivial⟩
        | some result =>
          dsimp only
          by_cases hz : result - value - s.fee ≠ 0
          · rw [if_pos hz]
            exact ⟨by simp only [keepsInvariant]; rw [hsum, hts],
              by simp only [supplyIs]; rw [hts]⟩
          · rw [if_neg hz]
            by_cases ht : (eraseKV inner caller).length = 0
            · rw [if_pos ht]
              exact ⟨by simp only [keepsInvariant]; rw [hsum, hts],
                by simp only [supplyIs]; rw [hts]⟩
            · rw [if_neg ht]
              exact ⟨by simp only [keepsInvariant]; rw [hsum, hts],
                by simp only [supplyIs]; rw [hts]⟩

/-- `approve` preserves the sum invariant and the total supply. -/
theorem approve_keeps (s : LedgerState) (caller spender value : Nat)
    (hinv : sumVals s.balances = s.total_supply) :
    keepsInvariant (approve s caller spender value) ∧
    supplyIs (approve s caller spender value) s.total_supply := by
  unfold approve
  by_cases hg : balance_of s caller < s.fee
  · rw [if_pos hg]
    exact ⟨hinv, rfl⟩
  · rw [if_neg hg]
    push_neg at hg
    have hsum : sumVals (_charge_fee s caller s.fee_to s.fee).balances = s.total_supply := by
      rw [sumVals_charge_fee s caller s.fee_to hg]
      exact hinv
    have hts := _charge_fee_total_supply s caller s.fee_to s.fee
    simp only
    rw [_charge_fee_allowances]
    cases hAl : lookupKV s.allowances caller with
    | some inner =>
      dsimp only
      by_cases hv : value + s.fee ≠ 0
      · rw [if_pos hv]
        exact ⟨by simp only [keepsInvariant]; rw [hsum, hts],
          by simp only [supplyIs]; rw [hts]⟩
      · rw [if_neg hv]
        by_cases ht : (eraseKV inner spender).length = 0
        · rw [if_pos ht]
          exact ⟨by simp only [keepsInvariant]; rw [hsum, hts],
            by simp only [supplyIs]; rw [hts]⟩
        · rw [if_neg ht]
          exact ⟨by simp only [keepsInvariant]; rw [hsum, hts],
            by simp only [supplyIs]; rw [hts]⟩
    | none =>
      dsimp only
      by_cases hv : value + s.fee ≠ 0
      · rw [if_pos hv]
        exact ⟨by simp only [keepsInvariant]; rw [hsum, hts],
          by simp only [supplyIs]; rw [hts]⟩
      · rw [if_neg hv]
        exact ⟨by simp only [keepsInvariant]; rw [hsum, hts],
          by simp only [supplyIs]; rw [hts]⟩

/-- `delegate` touches only the delegation and checkpoint maps, so it
preserves the sum invariant and the total supply. -/
theorem delegate_keeps (s : LedgerState) (caller delegatee now : Nat)
    (hinv : sumVals s.balances = s.total_supply) :
    keepsInvariant (delegate s caller delegatee now) ∧
    supplyIs (delegate s caller delegatee now) s.total_supply := by
  unfold delegate
  by_cases hg : balance_of s caller = 0
  · rw [if_pos hg]
    exact ⟨hinv, rfl⟩
  · rw [if_neg hg]
    constructor
    · simp only [keepsInvariant, _delegate]
      rw [_move_delegates_balances, _move_delegates_total_supply]
      exact hinv
    · simp only [supplyIs, _delegate]
      rw [_move_delegates_total_supply]

/-- `mint` adds `amount` to both the balances sum and the total supply. -/
theorem mint_keeps (s : LedgerState) (caller toA amount : Nat)
    (hinv : sumVals s.balances = s.total_supply) :
    keepsInvariant (mint s caller toA amount) ∧
    (∀ s2, mint s caller toA amount = .ok s2 →
      s2.total_supply = s.total_supply + amount) := by
  unfold mint
  by_cases hg : caller = s.owner
  · rw [if_neg (show ¬caller ≠ s.owner from fun hne => hne hg)]
    constructor
    · simp only [keepsInvariant]
      rw [sumVals_insertKV]
      have he := sumVals_eraseKV_add_lookup s.balances toA
      rw [balance_of_eq]
      omega
    · intro s2 h
      cases h
      rfl
  · rw [if_pos hg]
    exact ⟨hinv, fun s2 h => LedgerResult.noConfusion h⟩

/-- `burn` removes `amount` from both the balances sum and the total
supply. -/
theorem burn_keeps (s : LedgerState) (caller amount : Nat)
    (hinv : sumVals s.balances = s.total_supply) :
    keepsInvariant (burn s caller amount) ∧
    (∀ s2, burn s caller amount = .ok s2 →
      s2.total_supply = s.total_supply - amount) := by
  unfold burn
  by_cases hg : balance_of s caller < amount
  · rw [if_pos hg]
    exact ⟨hinv, fun s2 h => LedgerResult.noConfusion h⟩
  · rw [if_neg hg]
    push_neg at hg
    constructor
    · simp only [keepsInvariant]
      rw [sumVals_insertKV]
      have he := sumVals_eraseKV_add_lookup s.balances caller
      rw [balance_of_eq] at hg ⊢
      omega
    · intro s2 h
      cases h
      rfl

/-- C9: the sum of all balances equals the total supply before and after
every ledger operation; only `mint` and `burn` change the total supply
(by exactly the minted/burned amount); fee charging moves balance to the
fee recipient without changing the sum. -/
theorem ledger_sum_invariant (s : LedgerState)
    (caller sender toA spender delegatee value value2 amount now : Nat)
    (hnd : NodupKeys s.balances) (hinv : sumVals s.balances = s.total_supply) :
    keepsInvariant (transfer s caller toA value now) ∧
    keepsInvariant (transfer_from s caller sender toA value2 now) ∧
    keepsInvariant (approve s caller spender value) ∧
    keepsInvariant (delegate s caller delegatee now) ∧
    keepsInvariant (mint s caller toA amount) ∧
    keepsInvariant (burn s caller amount) ∧
    supplyIs (transfer s caller toA value now) s.total_supply ∧
    supplyIs (transfer_from s caller sender toA value2 now) s.total_supply ∧
    supplyIs (approve s caller spender value) s.total_supply ∧
    supplyIs (delegate s caller delegatee now) s.total_supply ∧
    (∀ s2, mint s caller toA amount = .ok s2 →
      s2.total_supply = s.total_supply + amount) ∧
    (∀ s2, burn s caller amount = .ok s2 →
      s2.total_supply = s.total_supply - amount) ∧
    (s.fee ≤ balance_of s caller →
      sumVals (_charge_fee s caller s.fee_to s.fee).balances = sumVals s.balances) := by
  obtain ⟨t1, t2⟩ := transfer_keeps s caller toA value now hnd hinv
  obtain ⟨f1, f2⟩ := transfer_from_keeps s caller sender toA value2 now hnd hinv
  obtain ⟨a1, a2⟩ := approve_keeps s caller spender value hinv
  obtain ⟨d1, d2⟩ := delegate_keeps s caller delegatee now hinv
  obtain ⟨m1, m2⟩ := mint_keeps s caller toA amount hinv
  obtain ⟨b1, b2⟩ := burn_keeps s caller amount hinv
  exact ⟨t1, f1, a1, d1, m1, b1, t2, f2, a2, d2, m2, b2,
    fun h => sumVals_charge_fee s caller s.fee_to h⟩

/-- Witness for C9 at the populated ledger `ledger2`. -/
theorem ledger_sum_invariant_witness :
    NodupKeys ledger2.balances ∧
    sumVals ledger2.balances = ledger2.total_supply ∧
    keepsInvariant (transfer ledger2 1 2 3 0) ∧
    keepsInvariant (mint ledger2 1 2 5) :=
  ⟨by unfold NodupKeys; decide, by decide,
   (ledger_sum_invariant ledger2 1 1 2 2 2 3 3 5 0 (by unfold NodupKeys; decide)
     (by decide)).1,
   (ledger_sum_invariant ledger2 1 1 2 2 2 3 3 5 0 (by unfold NodupKeys; decide)
     (by decide)).2.2.2.2.1⟩

/-- C10: a successful `approve(spender, value)` stores
`allowance(owner, spender) = value + fee`, removing the entry when that sum
is zero; `transferFrom` of `value2` requires at least `value2 + fee` of
stored allowance (failing `InsufficientAllowance` below it) and deducts
exactly `value2 + fee`, removing the entry when the remainder is zero. -/
theorem approve_allowance_fee_semantics (s : LedgerState)
    (caller spender sender toA value value2 now : Nat)
    (hnA : NodupKeys s.allowances)
    (hin : ∀ p inner, lookupKV s.allowances p = some inner → NodupKeys inner) :
    (∀ s2, approve s caller spender value = .ok s2 →
      allowanceEntry s2 caller spender =
        (if value + s.fee = 0 then none else some (value + s.fee))) ∧
    (allowance s sender caller < value2 + s.fee →
      transfer_from s caller sender toA value2 now = .err .InsufficientAllowance s) ∧
    (∀ s2, transfer_from s caller sender toA value2 now = .ok s2 →
      value2 + s.fee ≤ allowance s sender caller ∧
      allowanceEntry s2 sender caller =
        (if allowance s sender caller - (value2 + s.fee) = 0 then none
         else some (allowance s sender caller - (value2 + s.fee)))) := by
  refine ⟨?_, ?_, ?_⟩
  · -- approve
    unfold approve
    by_cases hg : balance_of s caller < s.fee
    · rw [if_pos hg]
      exact fun s2 h => LedgerResult.noConfusion h
    · rw [if_neg hg]
      simp only
      rw [_charge_fee_allowances]
      cases hAl : lookupKV s.allowances caller with
      | some inner =>
        dsimp only
        by_cases hv : value + s.fee ≠ 0
        · rw [if_pos hv]
          intro s2 h
          cases h
          rw [if_neg hv]
          unfold allowanceEntry
          dsimp only
          rw [lookupKV_insertKV_self]
          dsimp only
          rw [lookupKV_insertKV_self]
        · rw [if_neg hv]
          push_neg at hv
          intro s2 h
          by_cases ht : (eraseKV inner spender).length = 0
          · rw [if_pos ht] at h
            cases h
            rw [if_pos hv]
            unfold allowanceEntry
            dsimp only
            rw [lookupKV_eraseKV_self _ _ hnA]
          · rw [if_neg ht] at h
            cases h
            rw [if_pos hv]
            unfold allowanceEntry
            dsimp only
            rw [lookupKV_insertKV_self]
            dsimp only
            rw [lookupKV_eraseKV_self _ _ (hin caller inner hAl)]
      | none =>
        dsimp only
        by_cases hv : value + s.fee ≠ 0
        · rw [if_pos hv]
          intro s2 h
          cases h
          rw [if_neg hv]
          unfold allowanceEntry
          dsimp only
          rw [lookupKV_insertKV_self]
          dsimp only
          simp [lookupKV]
        · rw [if_neg hv]
          push_neg at hv
          intro s2 h
          cases h
          rw [if_pos hv]
          unfold allowanceEntry
          dsimp only
          rw [_charge_fee_allowances, hAl]
  · -- transfer_from requires the stored allowance
    intro hlt
    unfold transfer_from
    rw [if_pos hlt]
  · -- transfer_from deducts value2 + fee
    unfold transfer_from
    by_cases hg1 : allowance s sender caller < value2 + s.fee
    · rw [if_pos hg1]
      exact fun s2 h => LedgerResult.noConfusion h
    · rw [if_neg hg1]
      push_neg at hg1
      by_cases hg2 : balance_of s sender < value2 + s.fee
      · rw [if_pos hg2]
        exact fun s2 h => LedgerResult.noConfusion h
      · rw [if_neg hg2]
        simp only
        have hA : (_move_delegates
            (_transfer (_charge_fee s sender s.fee_to s.fee) sender toA value2)
            (some sender) (some toA) value2 s.fee now).allowances = s.allowances := by
          rw [_move_delegates_allowances, _transfer_allowances, _charge_fee_allowances]
        rw [hA]
        cases hAl : lookupKV s.allowances sender with
        | none =>
          dsimp only
          exact fun s2 h => LedgerResult.noConfusion h
        | some inner =>
          dsimp only
          cases hIn : lookupKV inner caller with
          | none =>
            dsimp only
            exact fun s2 h => LedgerResult.noConfusion h
          | some result =>
            dsimp only
            have hres : allowance s sender caller = result := by
              unfold allowance
              rw [hAl]
              simp [lookupD, hIn]
            have hsub : allowance s sender caller - (value2 + s.fee) =
                result - value2 - s.fee := by
              rw [hres]
              omega
            intro s2 h
            refine ⟨hg1, ?_⟩
            rw [hsub]
            by_cases hz : result - value2 - s.fee ≠ 0
            · rw [if_pos hz] at h
              cases h
              rw [if_neg hz]
              unfold allowanceEntry
              dsimp only
              rw [lookupKV_insertKV_self]
              dsimp only
              rw [lookupKV_insertKV_self]
            · rw [if_neg hz] at h
              push_neg at hz
              by_cases ht : (eraseKV inner caller).length = 0
              · rw [if_pos ht] at h
                cases h
                rw [if_pos hz]
                unfold allowanceEntry
                dsimp only
                rw [lookupKV_eraseKV_self _ _ hnA]
              · rw [if_neg ht] at h
                cases h
                rw [if_pos hz]
                unfold allowanceEntry
                dsimp only
                rw [lookupKV_insertKV_self]
                dsimp only
                rw [lookupKV_eraseKV_self _ _ (hin sender inner hAl)]

/-- Witness for C10 at the populated ledger `ledger2`: account 1's stored
allowance for account 2 is 5, below the requested `9 + fee`, so the
`transferFrom` is rejected with `InsufficientAllowance`. -/
theorem approve_allowance_fee_semantics_witness :
    NodupKeys ledger2.allowances ∧
    allowance ledger2 1 2 < 9 + ledger2.fee ∧
    transfer_from ledger2 2 1 3 9 0 = .err .InsufficientAllowance ledger2 := by
  refine ⟨by unfold NodupKeys; decide, by decide, ?_⟩
  refine (approve_allowance_fee_semantics ledger2 2 3 1 3 9 9 0
    (by unfold NodupKeys; decide) ?_).2.1 (by decide)
  intro p inner h
  by_cases hp : (1 : Nat) = p
  · simp only [ledger2, lookupKV, if_pos hp] at h
    injection h with h2
    rw [← h2]
    unfold NodupKeys
    decide
  · simp only [ledger2, lookupKV, if_neg hp] at h
    exact Option.noConfusion h

end Gov
